import Mathlib

/-!
# obs-alsa-auto-reopen: a shallow embedding of `main.go`

The program watches the `InputVolumeMeters` events of an OBS websocket
connection, keeps a map `currentLevel` from input name to the maximum of the
reported levels, and on every tick calls `checkAndFixInput` for each configured
input.  `checkAndFixInput` toggles the suffix `_reopening` on the `custom_pcm`
setting of an input whose level is negative.

The embedding below follows `main.go` statement by statement:

* Go strings are sequences of code units; `strings.HasSuffix` and
  `strings.TrimSuffix` are written with the slicing expressions of the Go
  standard library.
* `float64` is the IEEE 754 binary64 bit pattern (sign, 11 exponent bits,
  52 fraction bits); `<`, `==`, `>` and `math.Max` are exact on it.
* Go maps are association lists read through `GoMap.get`.
* The OBS client is a state-passing interface; every call of the program on it
  is recorded in a trace of effects, failures included.
* Log lines below the fatal level are not effects of the model.
-/

namespace ObsAlsaAutoReopen

/-! ## Go strings -/

/-- A Go string: an immutable sequence of code units. -/
abbrev GoString := List Char

/-- Go `strings.HasSuffix(s, suffix)`:
`len(s) >= len(suffix) && s[len(s)-len(suffix):] == suffix`. -/
def HasSuffix (s suffix : GoString) : Bool :=
  decide (s.length ≥ suffix.length) && (s.drop (s.length - suffix.length) == suffix)

/-- Go `strings.TrimSuffix(s, suffix)`:
`if HasSuffix(s, suffix) { return s[:len(s)-len(suffix)] }; return s`. -/
def TrimSuffix (s suffix : GoString) : GoString :=
  if HasSuffix s suffix then s.take (s.length - suffix.length) else s

/-- The constant `magicSuffix = "_reopening"` of `main.go`. -/
def magicSuffix : GoString := "_reopening".toList

/-! ## float64 -/

/-- An IEEE 754 binary64 value as its three bit fields. -/
structure Float64 where
  sign : Bool
  exp : Fin 2048
  frac : Fin 4503599627370496
  deriving DecidableEq, Repr

namespace Float64

/-- Go `math.IsNaN`. -/
def isNaN (x : Float64) : Bool := x.exp.val == 2047 && x.frac.val != 0

/-- The 63 magnitude bits read as a natural number. -/
def mag (x : Float64) : Nat := x.exp.val * 4503599627370496 + x.frac.val

/-- The position of a non-NaN value on the real line, as a signed magnitude;
both zeros are sent to `0`. -/
def key (x : Float64) : Int := if x.sign then -(x.mag : Int) else (x.mag : Int)

/-- Go `x < y` on float64: false when either operand is NaN. -/
def lt (x y : Float64) : Bool := !x.isNaN && !y.isNaN && decide (x.key < y.key)

/-- Go `x > y` on float64. -/
def gt (x y : Float64) : Bool := lt y x

/-- Go `x == y` on float64: false on NaN, true on `+0 == -0`. -/
def feq (x y : Float64) : Bool := !x.isNaN && !y.isNaN && decide (x.key = y.key)

/-- Go `x <= y` on float64. -/
def le (x y : Float64) : Bool := !x.isNaN && !y.isNaN && decide (x.key ≤ y.key)

/-- Go `math.IsInf(x, 1)`. -/
def isPosInf (x : Float64) : Bool := !x.sign && x.exp.val == 2047 && x.frac.val == 0

/-- Go `math.IsInf(x, -1)`. -/
def isNegInf (x : Float64) : Bool := x.sign && x.exp.val == 2047 && x.frac.val == 0

/-- The float64 constant `0`, which is also the zero value of the type. -/
def zero : Float64 := ⟨false, 0, 0⟩

instance : Inhabited Float64 := ⟨zero⟩

/-- Go `math.Inf(1)`. -/
def posInf : Float64 := ⟨false, 2047, 0⟩

/-- Go `math.Inf(-1)`. -/
def negInf : Float64 := ⟨true, 2047, 0⟩

/-- Go `math.NaN()`, bits `0x7FF8000000000001`. -/
def NaN : Float64 := ⟨false, 2047, 2251799813685249⟩

/-- Go `math.MaxFloat64`, bits `0x7FEFFFFFFFFFFFFF`. -/
def MaxFloat64 : Float64 := ⟨false, 2046, 4503599627370495⟩

/-- Unary minus: flips the sign bit. -/
def neg (x : Float64) : Float64 := { x with sign := !x.sign }

/-- Go `math.Max(x, y)`:
```
switch {
case IsInf(x, 1) || IsInf(y, 1): return Inf(1)
case IsNaN(x) || IsNaN(y):       return NaN()
case x == 0 && x == y:           if Signbit(x) { return y }; return x
}
if x > y { return x }
return y
``` -/
def Max (x y : Float64) : Float64 :=
  if x.isPosInf || y.isPosInf then posInf
  else if x.isNaN || y.isNaN then NaN
  else if feq x zero && feq x y then (if x.sign then y else x)
  else if gt x y then x
  else y

end Float64

/-! ## Go maps -/

/-- A Go `map[string]V`, read through `GoMap.get`. -/
abbrev GoMap (V : Type) := List (GoString × V)

namespace GoMap

variable {V : Type}

/-- The comma-ok lookup `v, ok := m[k]` as an option. -/
def get (m : GoMap V) (k : GoString) : Option V :=
  match m with
  | [] => none
  | (k', v) :: rest => if k' = k then some v else get rest k

/-- Go `delete(m, k)`. -/
def delete (m : GoMap V) (k : GoString) : GoMap V :=
  m.filter (fun e => decide (e.1 ≠ k))

/-- Go `m[k] = v`. -/
def set (m : GoMap V) (k : GoString) (v : V) : GoMap V :=
  (k, v) :: delete m k

/-- The keys of the map. -/
def keys (m : GoMap V) : List GoString := m.map Prod.fst

end GoMap

/-- The index expression `m[k]` on a `map[string]float64`: the stored value, or
the zero value of `float64` when the key is absent. -/
def index (m : GoMap Float64) (k : GoString) : Float64 :=
  match m.get k with
  | some v => v
  | none => Float64.zero

/-! ## The OBS client and the effects of the program -/

/-- A value of Go type `any` as found in the decoded `InputSettings`. -/
inductive AnyValue
  | null
  | bool (b : Bool)
  | number (x : Float64)
  | str (s : GoString)
  | composite (id : Nat)
  deriving DecidableEq

/-- The `InputSettings` of an OBS input: `map[string]any`. -/
abbrev Settings := GoMap AnyValue

/-- The type assertion `settings[key].(string)`: `none` stands for the run-time
panic on an absent key or a value of another dynamic type. -/
def assertString (v : Option AnyValue) : Option GoString :=
  match v with
  | some (.str s) => some s
  | _ => none

/-- The request `obsinputs.SetInputSettingsParams`; its fields are pointers made
with the helper `ptr`, held here as the values they point to. -/
structure SetInputSettingsParams where
  InputName : GoString
  InputSettings : Settings
  Overlay : Bool
  deriving DecidableEq

/-- An error returned by a request of the client. -/
structure RpcError where
  code : Nat
  deriving DecidableEq

/-- What the program does to the outside world, in order. -/
inductive Effect
  | GetInputSettings (InputName : GoString)
  | SetInputSettings (req : SetInputSettingsParams)
  | Sleep (nanoseconds : Nat)
  deriving DecidableEq

/-- The ways the process stops inside `checkAndFixInput`. -/
inductive Halt
  | unsupportedDeviceID (inputName deviceID : GoString)
  | mustFailed (err : RpcError)
  | typeAssertion (key : GoString)
  deriving DecidableEq

/-- The two requests of `goobs.Client.Inputs` the program uses, over a service
state `σ`. -/
structure Client (σ : Type) where
  GetInputSettings : σ → GoString → Except RpcError Settings × σ
  SetInputSettings : σ → SetInputSettingsParams → Except RpcError Unit × σ

/-- The result of running a piece of the program: how it ended, the service state
it left and the effects it performed. -/
structure Step (σ α : Type) where
  result : Except Halt α
  state : σ
  trace : List Effect

/-- A piece of the program running against a service in state `σ`. -/
def Prog (σ α : Type) : Type := σ → Step σ α

namespace Prog

variable {σ α β : Type}

/-- Return without any effect. -/
def ret (a : α) : Prog σ α := fun s => ⟨.ok a, s, []⟩

/-- Sequencing: a halt stops the program, the effects so far are kept. -/
def seq (m : Prog σ α) (f : α → Prog σ β) : Prog σ β := fun s =>
  match m s with
  | ⟨.error h, s', t⟩ => ⟨.error h, s', t⟩
  | ⟨.ok a, s', t⟩ => ⟨(f a s').result, (f a s').state, t ++ (f a s').trace⟩

instance : Monad (Prog σ) where
  pure := ret
  bind := seq

/-- Stop the process. -/
def halt (h : Halt) : Prog σ α := fun s => ⟨.error h, s, []⟩

/-- The call `cl.Inputs.GetInputSettings(&GetInputSettingsParams{InputName: ptr(inputName)})`. -/
def getInputSettings (cl : Client σ) (inputName : GoString) :
    Prog σ (Except RpcError Settings) := fun s =>
  ⟨.ok (cl.GetInputSettings s inputName).1, (cl.GetInputSettings s inputName).2,
    [Effect.GetInputSettings inputName]⟩

/-- The call `cl.Inputs.SetInputSettings(&req)`. -/
def setInputSettings (cl : Client σ) (req : SetInputSettingsParams) :
    Prog σ (Except RpcError Unit) := fun s =>
  ⟨.ok (cl.SetInputSettings s req).1, (cl.SetInputSettings s req).2,
    [Effect.SetInputSettings req]⟩

/-- The call `time.Sleep(d)`. -/
def sleep (nanoseconds : Nat) : Prog σ Unit := fun s => ⟨.ok (), s, [Effect.Sleep nanoseconds]⟩

/-- Modelled from the spec: the helper `must` is not in `main.go`; the spec says
that any RPC failure "surfaces immediately", is "not retried" and is "fatal for
the whole process".  On success `must` hands the value over. -/
def must (r : Except RpcError α) : Prog σ α :=
  match r with
  | .ok a => ret a
  | .error e => halt (.mustFailed e)

end Prog

/-- The settings key `"device_id"`. -/
def keyDeviceID : GoString := "device_id".toList

/-- The settings key `"custom_pcm"`. -/
def keyCustomPCM : GoString := "custom_pcm".toList

/-- The only supported value of `device_id`, `"__custom__"`. -/
def customDevice : GoString := "__custom__".toList

/-- The duration `5 * time.Second` in nanoseconds. -/
def settleDelay : Nat := 5 * 1000000000

/-- Line 97: `isZero := currentLevel < 0`. -/
def isZero (currentLevel : Float64) : Bool := Float64.lt currentLevel Float64.zero

/-- The function `checkAndFixInput` of `main.go` (lines 90-145).  `logger.Fatalf`
ends the process.  The settings map is updated in place, so the second request
carries the map as left by the first update. -/
def checkAndFixInput {σ : Type} (cl : Client σ) (inputName : GoString)
    (currentLevel : Float64) (dryRun : Bool) : Prog σ Unit := do
  let isZero := isZero currentLevel
  if !isZero then
    return ()
  let settingsResp ← Prog.must (← Prog.getInputSettings cl inputName)
  let settings := settingsResp
  match assertString (settings.get keyDeviceID) with
  | none => Prog.halt (.typeAssertion keyDeviceID)
  | some deviceID =>
    if deviceID ≠ customDevice then
      Prog.halt (.unsupportedDeviceID inputName deviceID)
    else
      match assertString (settings.get keyCustomPCM) with
      | none => Prog.halt (.typeAssertion keyCustomPCM)
      | some customPCM =>
        let mut customPCM := customPCM
        let mut settings := settings
        if !HasSuffix customPCM magicSuffix then
          customPCM := customPCM ++ magicSuffix
          settings := settings.set keyCustomPCM (.str customPCM)
          let req : SetInputSettingsParams := ⟨inputName, settings, true⟩
          if dryRun then
            pure ()
          else
            let _ ← Prog.must (← Prog.setInputSettings cl req)
        customPCM := TrimSuffix customPCM magicSuffix
        settings := settings.set keyCustomPCM (.str customPCM)
        let req : SetInputSettingsParams := ⟨inputName, settings, true⟩
        if dryRun then
          pure ()
        else
          let _ ← Prog.must (← Prog.setInputSettings cl req)
        Prog.sleep settleDelay

/-! ## The handlers of the main loop -/

/-- The element type `typedefs.InputVolumeMeter` of `ev.Inputs`. -/
structure InputVolumeMeter where
  Name : GoString
  Levels : List (List Float64)

/-- The event `obsevents.InputVolumeMeters`. -/
structure InputVolumeMeters where
  Inputs : List InputVolumeMeter

/-- Lines 73-78: the running maximum over every component of every channel,
started at `-math.MaxFloat64`. -/
def volumeOf (input : InputVolumeMeter) : Float64 :=
  input.Levels.foldl (fun volume s => s.foldl (fun volume cmp => Float64.Max volume cmp) volume)
    (Float64.neg Float64.MaxFloat64)

/-- Lines 69-71: `for name := range currentLevel { delete(currentLevel, name) }`. -/
def clearLevels (currentLevel : GoMap Float64) : GoMap Float64 :=
  currentLevel.keys.foldl (fun m name => m.delete name) currentLevel

/-- Lines 67-80: the handler of an `InputVolumeMeters` event. -/
def handleInputVolumeMeters (currentLevel : GoMap Float64) (ev : InputVolumeMeters) :
    GoMap Float64 :=
  ev.Inputs.foldl (fun m input => m.set input.Name (volumeOf input)) (clearLevels currentLevel)

/-- Lines 82-85: the handler of a tick. -/
def handleTick {σ : Type} (cl : Client σ) (inputs : List GoString)
    (currentLevel : GoMap Float64) (dryRun : Bool) : Prog σ Unit :=
  match inputs with
  | [] => Prog.ret ()
  | inputName :: rest =>
    Prog.seq (checkAndFixInput cl inputName (index currentLevel inputName) dryRun)
      (fun _ => handleTick cl rest currentLevel dryRun)

/-! ## A concrete service, to run the program on concrete inputs -/

/-- An overlay write: the keys of `new` replace those of `old`, the other keys
of `old` stay. -/
def overlaySettings (old new : Settings) : Settings :=
  new.foldr (fun e m => m.set e.1 e.2) old

/-- A service that keeps the settings of every input in a map, answers a fetch
with the stored settings and applies every write; a request that names an
unknown input fails. -/
def memoryClient : Client (GoMap Settings) where
  GetInputSettings := fun st inputName =>
    match st.get inputName with
    | some settings => (.ok settings, st)
    | none => (.error ⟨600⟩, st)
  SetInputSettings := fun st req =>
    match st.get req.InputName with
    | some settings =>
      (.ok (), st.set req.InputName
        (if req.Overlay then overlaySettings settings req.InputSettings else req.InputSettings))
    | none => (.error ⟨600⟩, st)

/-- A service that answers every fetch with the same settings and acknowledges
every write. -/
def fixedClient (settings : Settings) : Client Unit where
  GetInputSettings := fun st _ => (.ok settings, st)
  SetInputSettings := fun st _ => (.ok (), st)

/-- The settings of an ALSA input with the given `device_id` and `custom_pcm`. -/
def alsaSettings (deviceID customPCM : GoString) : Settings :=
  [(keyCustomPCM, .str customPCM), (keyDeviceID, .str deviceID),
    ("rate".toList, .number ⟨false, 1038, 2093470139285504⟩)]

/-- The float64 value `-90`, bits `0xC056800000000000`. -/
def minus90 : Float64 := ⟨true, 1029, 1829587348619264⟩

/-- The float64 value `1`, bits `0x3FF0000000000000`. -/
def one : Float64 := ⟨false, 1023, 0⟩

/-- The float64 value `2`, bits `0x4000000000000000`. -/
def two : Float64 := ⟨false, 1024, 0⟩

/-- The input name `"Mic1"`. -/
def mic1 : GoString := "Mic1".toList

/-- The input name `"Mic2"`. -/
def mic2 : GoString := "Mic2".toList

/-- A service that knows the input `Mic1`, a custom ALSA device with the given
`custom_pcm`. -/
def obsWith (customPCM : GoString) : GoMap Settings :=
  [(mic1, alsaSettings customDevice customPCM)]

/-! ## Notions the specification speaks of -/

/-- All measurement scalars of one input, over every channel and every
component. -/
def scalars (input : InputVolumeMeter) : List Float64 := input.Levels.flatten

/-- The value `m` is the maximum of `xs`: it is one of them and every one of them
is `<=` it. -/
def IsMaximumOf (m : Float64) (xs : List Float64) : Prop :=
  m ∈ xs ∧ ∀ x ∈ xs, Float64.le x m = true

/-- The set-settings requests of a trace, in order. -/
def writes (trace : List Effect) : List SetInputSettingsParams :=
  trace.filterMap (fun e => match e with
    | .SetInputSettings req => some req
    | _ => none)

/-- The `custom_pcm` string carried by the last set-settings request of a
trace. -/
def lastWrittenPCM (trace : List Effect) : Option GoString :=
  match (writes trace).reverse with
  | [] => none
  | req :: _ => assertString (req.InputSettings.get keyCustomPCM)

/-- The recovery sequences of one tick as the specification describes them: for
each configured input whose level is classified silent, in the configured order,
the effects of its recovery, run against the service as the previous recoveries
left it; a recovery that stops the process is the last one. -/
def recoverySequences {σ : Type} (cl : Client σ) (inputs : List GoString)
    (currentLevel : GoMap Float64) (dryRun : Bool) (st : σ) : List (List Effect) :=
  match inputs with
  | [] => []
  | inputName :: rest =>
    if isZero (index currentLevel inputName) then
      match (checkAndFixInput cl inputName (index currentLevel inputName) dryRun st).result with
      | .ok _ =>
        (checkAndFixInput cl inputName (index currentLevel inputName) dryRun st).trace ::
          recoverySequences cl rest currentLevel dryRun
            (checkAndFixInput cl inputName (index currentLevel inputName) dryRun st).state
      | .error _ =>
        [(checkAndFixInput cl inputName (index currentLevel inputName) dryRun st).trace]
    else recoverySequences cl rest currentLevel dryRun st

/-! ## Strings and maps: basic facts -/

theorem HasSuffix_append (s m : GoString) : HasSuffix (s ++ m) m = true := by
  simp [HasSuffix]

theorem TrimSuffix_append (s m : GoString) : TrimSuffix (s ++ m) m = s := by
  simp [TrimSuffix, HasSuffix_append]

theorem HasSuffix_iff (s m : GoString) : HasSuffix s m = true ↔ ∃ t, s = t ++ m := by
  constructor
  · intro h
    simp only [HasSuffix, Bool.and_eq_true, decide_eq_true_eq, beq_iff_eq] at h
    refine ⟨s.take (s.length - m.length), ?_⟩
    conv_lhs => rw [← List.take_append_drop (s.length - m.length) s]
    rw [h.2]
  · rintro ⟨t, rfl⟩
    exact HasSuffix_append t m

theorem TrimSuffix_of_not (s m : GoString) (h : HasSuffix s m = false) : TrimSuffix s m = s := by
  simp [TrimSuffix, h]

namespace GoMap
variable {V : Type}

theorem get_delete_self (m : GoMap V) (k : GoString) : (m.delete k).get k = none := by
  induction m with
  | nil => rfl
  | cons e rest ih =>
    obtain ⟨k', v⟩ := e
    by_cases h : k' = k
    · simpa [delete, List.filter_cons, h] using ih
    · simpa [delete, List.filter_cons, h, get] using ih

theorem get_delete_of_ne (m : GoMap V) (k k' : GoString) (h : k' ≠ k) :
    (m.delete k).get k' = m.get k' := by
  induction m with
  | nil => rfl
  | cons e rest ih =>
    obtain ⟨k0, v⟩ := e
    by_cases h0 : k0 = k
    · subst h0
      have : ¬ k0 = k' := fun e => h e.symm
      simpa [delete, List.filter_cons, get, this] using ih
    · by_cases h1 : k0 = k'
      · subst h1
        simp [delete, List.filter_cons, h0, get]
      · simpa [delete, List.filter_cons, h0, get, h1] using ih

theorem get_set_self (m : GoMap V) (k : GoString) (v : V) : (m.set k v).get k = some v := by
  simp [set, get]

theorem get_set_of_ne (m : GoMap V) (k k' : GoString) (v : V) (h : k' ≠ k) :
    (m.set k v).get k' = m.get k' := by
  have : ¬ k = k' := fun e => h e.symm
  simp [set, get, this, get_delete_of_ne m k k' h]

theorem set_set (m : GoMap V) (k : GoString) (v w : V) : (m.set k v).set k w = m.set k w := by
  simp [set, delete, List.filter_cons, List.filter_filter]

end GoMap
/-! ## float64: the running maximum -/

namespace Float64

theorem key_le_posInf (y : Float64) (h : y.isNaN = false) : y.key ≤ posInf.key := by
  obtain ⟨sg, e, f⟩ := y
  have he := e.isLt
  have hf := f.isLt
  simp only [isNaN, Bool.and_eq_false_iff, beq_eq_false_iff_ne, ne_eq, bne_eq_false_iff_eq] at h
  simp only [key, mag, posInf]
  cases sg <;> simp <;> omega

theorem eq_posInf_of_isPosInf (x : Float64) (h : x.isPosInf = true) : x = posInf := by
  obtain ⟨sg, e, f⟩ := x
  simp only [isPosInf, Bool.and_eq_true, Bool.not_eq_true', beq_iff_eq] at h
  obtain ⟨⟨h1, h2⟩, h3⟩ := h
  simp only [posInf, mk.injEq]
  exact ⟨h1, Fin.ext h2, Fin.ext h3⟩

theorem isNaN_posInf : posInf.isNaN = false := by decide

/-- On operands that are not NaN, `math.Max` returns one of its operands, which
is not NaN and is at least as large as both. -/
theorem Max_spec (x y : Float64) (hx : x.isNaN = false) (hy : y.isNaN = false) :
    (Max x y).isNaN = false ∧ (Max x y = x ∨ Max x y = y) ∧
      x.key ≤ (Max x y).key ∧ y.key ≤ (Max x y).key := by
  unfold Max
  by_cases hp : (x.isPosInf || y.isPosInf) = true
  · rw [if_pos hp]
    refine ⟨isNaN_posInf, ?_, key_le_posInf x hx, key_le_posInf y hy⟩
    rcases Bool.or_eq_true _ _ ▸ hp with h | h
    · exact Or.inl (eq_posInf_of_isPosInf x h).symm
    · exact Or.inr (eq_posInf_of_isPosInf y h).symm
  · rw [if_neg hp]
    have hn : ¬ ((x.isNaN || y.isNaN) = true) := by simp [hx, hy]
    rw [if_neg hn]
    by_cases hz : (feq x zero && feq x y) = true
    · rw [if_pos hz]
      simp only [feq, hx, hy, Bool.and_eq_true, Bool.not_false, Bool.true_and, decide_eq_true_eq] at hz
      obtain ⟨-, hxy⟩ := hz
      cases hs : x.sign
      · simp [hx, hxy]
      · simp [hy, hxy]
    · rw [if_neg hz]
      by_cases hg : gt x y = true
      · rw [if_pos hg]
        simp only [gt, lt, hx, hy, Bool.not_false, Bool.true_and, decide_eq_true_eq] at hg
        exact ⟨hx, Or.inl rfl, le_refl _, le_of_lt hg⟩
      · rw [if_neg hg]
        simp only [gt, lt, hx, hy, Bool.not_false, Bool.true_and, decide_eq_true_eq, not_lt] at hg
        exact ⟨hy, Or.inr rfl, hg, le_refl _⟩

/-- The running maximum over scalars none of which is NaN. -/
theorem foldl_Max_spec (xs : List Float64) (init : Float64) (hinit : init.isNaN = false)
    (hxs : ∀ x ∈ xs, x.isNaN = false) :
    (xs.foldl Max init).isNaN = false ∧ (xs.foldl Max init = init ∨ xs.foldl Max init ∈ xs) ∧
      init.key ≤ (xs.foldl Max init).key ∧ ∀ x ∈ xs, x.key ≤ (xs.foldl Max init).key := by
  induction xs generalizing init with
  | nil => simp [hinit]
  | cons a rest ih =>
    have ha : a.isNaN = false := hxs a (List.mem_cons_self a rest)
    obtain ⟨m1, m2, m3, m4⟩ := Max_spec init a hinit ha
    obtain ⟨r1, r2, r3, r4⟩ := ih (Max init a) m1 (fun x hx => hxs x (List.mem_cons_of_mem a hx))
    rw [List.foldl_cons]
    refine ⟨r1, ?_, le_trans m3 r3, ?_⟩
    · rcases r2 with h | h
      · rcases m2 with h' | h'
        · exact Or.inl (h.trans h')
        · exact Or.inr (by rw [h, h']; exact List.mem_cons_self a rest)
      · exact Or.inr (List.mem_cons_of_mem a h)
    · intro x hx
      rcases List.mem_cons.mp hx with h | h
      · subst h; exact le_trans m4 r3
      · exact r4 x h

theorem key_ge_of_not_negInf (x : Float64) (hn : x.isNaN = false) (hi : x.isNegInf = false) :
    (neg MaxFloat64).key ≤ x.key := by
  obtain ⟨sg, e, f⟩ := x
  have he := e.isLt
  have hf := f.isLt
  simp only [isNaN, Bool.and_eq_false_iff, beq_eq_false_iff_ne, ne_eq, bne_eq_false_iff_eq] at hn
  simp only [isNegInf, Bool.and_eq_false_iff, beq_eq_false_iff_ne, ne_eq] at hi
  simp only [key, mag, neg, MaxFloat64]
  cases sg <;> simp at hi ⊢ <;> omega

theorem eq_of_key_eq_negMax (x : Float64) (h : x.key = (neg MaxFloat64).key) :
    x = neg MaxFloat64 := by
  obtain ⟨sg, e, f⟩ := x
  have he := e.isLt
  have hf := f.isLt
  simp only [key, mag, neg, MaxFloat64] at h
  cases sg
  · simp at h; omega
  · simp at h
    simp only [neg, MaxFloat64, mk.injEq, Bool.not_false, true_and]
    constructor
    · apply Fin.ext; show e.val = 2046; omega
    · apply Fin.ext; show f.val = 4503599627370495; omega

end Float64
/-! ## `checkAndFixInput`: the paths through the function -/

theorem bind_eq_seq {σ α β : Type} (m : Prog σ α) (f : α → Prog σ β) :
    (m >>= f) = Prog.seq m f := rfl

theorem pure_eq_ret {σ α : Type} (a : α) : (pure a : Prog σ α) = Prog.ret a := rfl

theorem keyCustomPCM_ne_keyDeviceID : keyCustomPCM ≠ keyDeviceID := by decide

/-- A level that is not below zero: the function returns at once. -/
theorem checkAndFixInput_nonzero {σ : Type} (cl : Client σ) (inputName : GoString)
    (currentLevel : Float64) (dryRun : Bool) (st : σ) (h : isZero currentLevel = false) :
    checkAndFixInput cl inputName currentLevel dryRun st = ⟨.ok (), st, []⟩ := by
  simp [checkAndFixInput, h, pure_eq_ret, Prog.ret]

/-- A silent input whose `custom_pcm` does not end with the marker, all requests
succeeding: mark, unmark, sleep. -/
theorem checkAndFixInput_fresh {σ : Type} (cl : Client σ) (st st1 st2 st3 : σ)
    (inputName : GoString) (currentLevel : Float64) (settings : Settings) (s : GoString)
    (hsilent : isZero currentLevel = true)
    (hget : cl.GetInputSettings st inputName = (.ok settings, st1))
    (hdev : settings.get keyDeviceID = some (.str customDevice))
    (hpcm : settings.get keyCustomPCM = some (.str s))
    (hfresh : HasSuffix s magicSuffix = false)
    (hset1 : cl.SetInputSettings st1
      ⟨inputName, settings.set keyCustomPCM (.str (s ++ magicSuffix)), true⟩ = (.ok (), st2))
    (hset2 : cl.SetInputSettings st2
      ⟨inputName, settings.set keyCustomPCM (.str s), true⟩ = (.ok (), st3)) :
    checkAndFixInput cl inputName currentLevel false st =
      ⟨.ok (), st3,
        [.GetInputSettings inputName,
         .SetInputSettings ⟨inputName, settings.set keyCustomPCM (.str (s ++ magicSuffix)), true⟩,
         .SetInputSettings ⟨inputName, settings.set keyCustomPCM (.str s), true⟩,
         .Sleep settleDelay]⟩ := by
  simp [checkAndFixInput, bind_eq_seq, pure_eq_ret, Prog.seq, Prog.ret, Prog.must,
    Prog.getInputSettings, Prog.setInputSettings, Prog.sleep, hsilent, hget, hdev, hpcm,
    hfresh, assertString, GoMap.set_set, TrimSuffix_append, hset1, hset2]

/-- A silent input whose `custom_pcm` already ends with the marker, all requests
succeeding: unmark, sleep. -/
theorem checkAndFixInput_marked {σ : Type} (cl : Client σ) (st st1 st2 : σ)
    (inputName : GoString) (currentLevel : Float64) (settings : Settings) (s : GoString)
    (hsilent : isZero currentLevel = true)
    (hget : cl.GetInputSettings st inputName = (.ok settings, st1))
    (hdev : settings.get keyDeviceID = some (.str customDevice))
    (hpcm : settings.get keyCustomPCM = some (.str (s ++ magicSuffix)))
    (hset : cl.SetInputSettings st1
      ⟨inputName, settings.set keyCustomPCM (.str s), true⟩ = (.ok (), st2)) :
    checkAndFixInput cl inputName currentLevel false st =
      ⟨.ok (), st2,
        [.GetInputSettings inputName,
         .SetInputSettings ⟨inputName, settings.set keyCustomPCM (.str s), true⟩,
         .Sleep settleDelay]⟩ := by
  simp [checkAndFixInput, bind_eq_seq, pure_eq_ret, Prog.seq, Prog.ret, Prog.must,
    Prog.getInputSettings, Prog.setInputSettings, Prog.sleep, hsilent, hget, hdev, hpcm,
    assertString, HasSuffix_append, TrimSuffix_append, hset]

/-- Dry run on a silent input with well-typed settings: fetch, sleep. -/
theorem checkAndFixInput_dryRun {σ : Type} (cl : Client σ) (st st1 : σ)
    (inputName : GoString) (currentLevel : Float64) (settings : Settings) (s : GoString)
    (hsilent : isZero currentLevel = true)
    (hget : cl.GetInputSettings st inputName = (.ok settings, st1))
    (hdev : settings.get keyDeviceID = some (.str customDevice))
    (hpcm : settings.get keyCustomPCM = some (.str s)) :
    checkAndFixInput cl inputName currentLevel true st =
      ⟨.ok (), st1, [.GetInputSettings inputName, .Sleep settleDelay]⟩ := by
  cases hs : HasSuffix s magicSuffix <;>
  simp [checkAndFixInput, bind_eq_seq, pure_eq_ret, Prog.seq, Prog.ret, Prog.must,
    Prog.getInputSettings, Prog.sleep, hsilent, hget, hdev, hpcm, assertString, hs]

/-- No path of a dry run performs a set-settings request. -/
theorem writes_checkAndFixInput_dryRun {σ : Type} (cl : Client σ) (st : σ)
    (inputName : GoString) (currentLevel : Float64) :
    writes (checkAndFixInput cl inputName currentLevel true st).trace = [] := by
  cases hz : isZero currentLevel
  · simp [checkAndFixInput_nonzero cl inputName currentLevel true st hz, writes]
  · rcases hg : cl.GetInputSettings st inputName with ⟨r, st1⟩
    cases r with
    | error e =>
      simp [checkAndFixInput, bind_eq_seq, pure_eq_ret, Prog.seq, Prog.ret, Prog.must, Prog.halt,
        Prog.getInputSettings, hz, hg, writes]
    | ok settings =>
      cases hd : assertString (GoMap.get settings keyDeviceID) with
      | none =>
        simp [checkAndFixInput, bind_eq_seq, pure_eq_ret, Prog.seq, Prog.ret, Prog.must, Prog.halt,
          Prog.getInputSettings, hz, hg, hd, writes]
      | some d =>
        by_cases hdc : d = customDevice
        · cases hp : assertString (GoMap.get settings keyCustomPCM) with
          | none =>
            simp [checkAndFixInput, bind_eq_seq, pure_eq_ret, Prog.seq, Prog.ret, Prog.must,
              Prog.halt, Prog.getInputSettings, hz, hg, hd, hdc, hp, writes]
          | some s =>
            cases hs : HasSuffix s magicSuffix <;>
            simp [checkAndFixInput, bind_eq_seq, pure_eq_ret, Prog.seq, Prog.ret, Prog.must,
              Prog.halt, Prog.getInputSettings, Prog.sleep, hz, hg, hd, hdc, hp, hs, writes]
        · simp [checkAndFixInput, bind_eq_seq, pure_eq_ret, Prog.seq, Prog.ret, Prog.must,
            Prog.halt, Prog.getInputSettings, hz, hg, hd, hdc, writes]

/-- A silent input with another `device_id`: the process stops after the fetch. -/
theorem checkAndFixInput_unsupported {σ : Type} (cl : Client σ) (st st1 : σ)
    (inputName : GoString) (currentLevel : Float64) (dryRun : Bool) (settings : Settings)
    (deviceID : GoString)
    (hsilent : isZero currentLevel = true)
    (hget : cl.GetInputSettings st inputName = (.ok settings, st1))
    (hdev : settings.get keyDeviceID = some (.str deviceID))
    (hne : deviceID ≠ customDevice) :
    checkAndFixInput cl inputName currentLevel dryRun st =
      ⟨.error (.unsupportedDeviceID inputName deviceID), st1, [.GetInputSettings inputName]⟩ := by
  simp [checkAndFixInput, bind_eq_seq, pure_eq_ret, Prog.seq, Prog.ret, Prog.must, Prog.halt,
    Prog.getInputSettings, hsilent, hget, hdev, hne, assertString]


/-- The outcome of the write-or-log step (lines 123-128 and 138-143) is never the
unsupported-device stop. -/
theorem must_setInputSettings_result {σ : Type} (cl : Client σ) (req : SetInputSettingsParams)
    (st : σ) (n d : GoString) :
    (Prog.seq (Prog.setInputSettings cl req) (fun r => Prog.must r) st).result ≠
      .error (.unsupportedDeviceID n d) := by
  rcases h : cl.SetInputSettings st req with ⟨r, st1⟩
  cases r <;> simp [Prog.seq, Prog.setInputSettings, Prog.must, Prog.ret, Prog.halt, h]

/-- With `device_id = "__custom__"` the process never stops on the
unsupported-device check. -/
theorem checkAndFixInput_custom {σ : Type} (cl : Client σ) (st st1 : σ)
    (inputName : GoString) (currentLevel : Float64) (dryRun : Bool) (settings : Settings)
    (hget : cl.GetInputSettings st inputName = (.ok settings, st1))
    (hdev : settings.get keyDeviceID = some (.str customDevice)) (n d : GoString) :
    (checkAndFixInput cl inputName currentLevel dryRun st).result ≠
      .error (.unsupportedDeviceID n d) := by
  have hd : assertString (GoMap.get settings keyDeviceID) = some customDevice := by
    rw [hdev]; rfl
  cases hz : isZero currentLevel
  · simp [checkAndFixInput_nonzero cl inputName currentLevel dryRun st hz]
  · cases hp : assertString (GoMap.get settings keyCustomPCM) with
    | none =>
      simp [checkAndFixInput, bind_eq_seq, pure_eq_ret, Prog.seq, Prog.ret, Prog.must,
        Prog.halt, Prog.getInputSettings, hz, hget, hd, hp]
    | some s =>
      cases dryRun
      · cases hs : HasSuffix s magicSuffix
        · rcases h1 : cl.SetInputSettings st1
            ⟨inputName, settings.set keyCustomPCM (.str (s ++ magicSuffix)), true⟩ with ⟨r1, st2⟩
          cases r1 with
          | error e =>
            simp [checkAndFixInput, bind_eq_seq, pure_eq_ret, Prog.seq, Prog.ret, Prog.must,
              Prog.halt, Prog.getInputSettings, Prog.setInputSettings, hz, hget, hd, hp, hs, h1]
          | ok u =>
            rcases h2 : cl.SetInputSettings st2
              ⟨inputName, settings.set keyCustomPCM (.str s), true⟩ with ⟨r2, st3⟩
            cases r2 <;>
            simp [checkAndFixInput, bind_eq_seq, pure_eq_ret, Prog.seq, Prog.ret, Prog.must,
              Prog.halt, Prog.getInputSettings, Prog.setInputSettings, Prog.sleep, hz, hget, hd,
              hp, hs, h1, h2, GoMap.set_set, TrimSuffix_append]
        · rcases h2 : cl.SetInputSettings st1
            ⟨inputName, settings.set keyCustomPCM (.str (TrimSuffix s magicSuffix)), true⟩
            with ⟨r2, st3⟩
          cases r2 <;>
          simp [checkAndFixInput, bind_eq_seq, pure_eq_ret, Prog.seq, Prog.ret, Prog.must,
            Prog.halt, Prog.getInputSettings, Prog.setInputSettings, Prog.sleep, hz, hget, hd,
            hp, hs, h2]
      · cases hs : HasSuffix s magicSuffix <;>
        simp [checkAndFixInput, bind_eq_seq, pure_eq_ret, Prog.seq, Prog.ret, Prog.must,
          Prog.halt, Prog.getInputSettings, Prog.sleep, hz, hget, hd, hp, hs]

/-- Every silent input is fetched first, whatever happens next. -/
theorem head_trace_checkAndFixInput {σ : Type} (cl : Client σ) (st : σ)
    (inputName : GoString) (currentLevel : Float64) (dryRun : Bool)
    (hz : isZero currentLevel = true) :
    (checkAndFixInput cl inputName currentLevel dryRun st).trace.head? =
      some (.GetInputSettings inputName) := by
  simp [checkAndFixInput, hz, bind_eq_seq, pure_eq_ret, Prog.seq, Prog.ret, Prog.getInputSettings]

/-! ## The event handler -/

theorem foldl_delete_eq_nil (ks : List GoString) (m : GoMap Float64)
    (h : ∀ k ∈ m.keys, k ∈ ks) : ks.foldl (fun m name => m.delete name) m = [] := by
  induction ks generalizing m with
  | nil =>
    cases m with
    | nil => rfl
    | cons e rest => exact absurd (h e.1 (by simp [GoMap.keys])) (List.not_mem_nil _)
  | cons k ks ih =>
    rw [List.foldl_cons]
    apply ih
    intro k' hk'
    simp only [GoMap.keys, GoMap.delete, List.mem_map, List.mem_filter, decide_eq_true_eq] at hk'
    obtain ⟨e, ⟨he, hne⟩, rfl⟩ := hk'
    have := h e.1 (by simp only [GoMap.keys, List.mem_map]; exact ⟨e, he, rfl⟩)
    rcases List.mem_cons.mp this with h1 | h1
    · exact absurd h1 hne
    · exact h1

/-- The deletion loop of lines 69-71 leaves the map empty. -/
theorem clearLevels_eq_nil (m : GoMap Float64) : clearLevels m = [] :=
  foldl_delete_eq_nil m.keys m (fun _ h => h)

theorem mem_keys_delete (m : GoMap Float64) (k n : GoString) :
    n ∈ (m.delete k).keys ↔ n ∈ m.keys ∧ n ≠ k := by
  simp only [GoMap.keys, GoMap.delete, List.mem_map, List.mem_filter, decide_eq_true_eq]
  constructor
  · rintro ⟨e, ⟨he, hne⟩, rfl⟩
    exact ⟨⟨e, he, rfl⟩, hne⟩
  · rintro ⟨⟨e, he, rfl⟩, hne⟩
    exact ⟨e, ⟨he, hne⟩, rfl⟩

theorem mem_keys_set (m : GoMap Float64) (k n : GoString) (v : Float64) :
    n ∈ (m.set k v).keys ↔ n = k ∨ n ∈ m.keys := by
  have h := mem_keys_delete m k n
  simp only [GoMap.set, GoMap.keys, List.map_cons, List.mem_cons] at h ⊢
  rw [h]
  by_cases hk : n = k
  · simp [hk]
  · simp [hk]

/-- The keys after the insertion loop of lines 72-80. -/
theorem mem_keys_foldl_set (inputs : List InputVolumeMeter) (m : GoMap Float64) (n : GoString) :
    n ∈ (inputs.foldl (fun m input => m.set input.Name (volumeOf input)) m).keys ↔
      n ∈ m.keys ∨ n ∈ inputs.map (fun input => input.Name) := by
  induction inputs generalizing m with
  | nil => simp
  | cons a rest ih =>
    rw [List.foldl_cons, ih, mem_keys_set]
    simp only [List.map_cons, List.mem_cons]
    tauto

theorem get_eq_none_of_not_mem_keys (m : GoMap Float64) (n : GoString) (h : n ∉ m.keys) :
    m.get n = none := by
  induction m with
  | nil => rfl
  | cons e rest ih =>
    obtain ⟨k, v⟩ := e
    simp only [GoMap.keys, List.map_cons, List.mem_cons, not_or] at h
    have hk : ¬ k = n := fun e => h.1 e.symm
    simp only [GoMap.get, hk, if_false]
    exact ih h.2

/-- Later entries with other names leave the stored level of a name alone. -/
theorem get_foldl_set_of_ne (post : List InputVolumeMeter) (m : GoMap Float64) (n : GoString)
    (h : ∀ j ∈ post, j.Name ≠ n) :
    (post.foldl (fun m input => m.set input.Name (volumeOf input)) m).get n = m.get n := by
  induction post generalizing m with
  | nil => rfl
  | cons a rest ih =>
    rw [List.foldl_cons, ih _ (fun j hj => h j (List.mem_cons_of_mem a hj))]
    exact GoMap.get_set_of_ne m a.Name n _ (fun e => h a (List.mem_cons_self a rest) e.symm)

/-- The level stored for the last entry of a name is the volume of that entry. -/
theorem index_handleInputVolumeMeters (prior : GoMap Float64) (pre post : List InputVolumeMeter)
    (input : InputVolumeMeter) (h : ∀ j ∈ post, j.Name ≠ input.Name) :
    index (handleInputVolumeMeters prior ⟨pre ++ input :: post⟩) input.Name = volumeOf input := by
  simp only [index, handleInputVolumeMeters, List.foldl_append, List.foldl_cons]
  rw [get_foldl_set_of_ne post _ input.Name h, GoMap.get_set_self]

/-- The nested loops of lines 74-78 visit the scalars in order. -/
theorem volumeOf_eq_foldl (input : InputVolumeMeter) :
    volumeOf input = (scalars input).foldl Float64.Max (Float64.neg Float64.MaxFloat64) := by
  obtain ⟨name, levels⟩ := input
  simp only [volumeOf, scalars]
  generalize Float64.neg Float64.MaxFloat64 = init
  induction levels generalizing init with
  | nil => rfl
  | cons s rest ih => simp only [List.foldl_cons, List.flatten_cons, List.foldl_append, ih]

/-! ## The tick handler -/

theorem seq_of_ok {σ α β : Type} (m : Prog σ α) (f : α → Prog σ β) (s s1 : σ) (a : α)
    (t : List Effect) (h : m s = ⟨.ok a, s1, t⟩) :
    Prog.seq m f s = ⟨(f a s1).result, (f a s1).state, t ++ (f a s1).trace⟩ := by
  simp [Prog.seq, h]

theorem seq_of_error {σ α β : Type} (m : Prog σ α) (f : α → Prog σ β) (s s1 : σ) (e : Halt)
    (t : List Effect) (h : m s = ⟨.error e, s1, t⟩) :
    Prog.seq m f s = ⟨.error e, s1, t⟩ := by
  simp [Prog.seq, h]

/-- The effects of a tick are the recovery sequences of the silent inputs, one
after the other. -/
theorem trace_handleTick {σ : Type} (cl : Client σ) (inputs : List GoString)
    (currentLevel : GoMap Float64) (dryRun : Bool) (st : σ) :
    (handleTick cl inputs currentLevel dryRun st).trace =
      (recoverySequences cl inputs currentLevel dryRun st).flatten := by
  induction inputs generalizing st with
  | nil => rfl
  | cons n rest ih =>
    cases hz : isZero (index currentLevel n)
    · have h := checkAndFixInput_nonzero cl n (index currentLevel n) dryRun st hz
      simp only [handleTick, recoverySequences, hz, seq_of_ok _ _ _ _ _ _ h, List.nil_append]
      exact ih st
    · rcases h : checkAndFixInput cl n (index currentLevel n) dryRun st with ⟨r, s1, t⟩
      cases r with
      | error e =>
        simp [handleTick, recoverySequences, hz, seq_of_error _ _ _ _ _ _ h, h]
      | ok u =>
        simp [handleTick, recoverySequences, hz, seq_of_ok _ _ _ _ _ _ h, h, ih s1]

/-- A tick that runs to its end has recovered every silent input, in the
configured order, each recovery starting with the fetch of that input. -/
theorem heads_recoverySequences {σ : Type} (cl : Client σ) (inputs : List GoString)
    (currentLevel : GoMap Float64) (dryRun : Bool) (st : σ)
    (hok : (handleTick cl inputs currentLevel dryRun st).result = .ok ()) :
    (recoverySequences cl inputs currentLevel dryRun st).map List.head? =
      (inputs.filter (fun n => isZero (index currentLevel n))).map
        (fun n => some (Effect.GetInputSettings n)) := by
  induction inputs generalizing st with
  | nil => rfl
  | cons n rest ih =>
    cases hz : isZero (index currentLevel n)
    · have h := checkAndFixInput_nonzero cl n (index currentLevel n) dryRun st hz
      simp only [handleTick, seq_of_ok _ _ _ _ _ _ h] at hok
      simp only [recoverySequences, hz, List.filter_cons, Bool.false_eq_true, if_false]
      exact ih st hok
    · have hh := head_trace_checkAndFixInput cl st n (index currentLevel n) dryRun hz
      rcases h : checkAndFixInput cl n (index currentLevel n) dryRun st with ⟨r, s1, t⟩
      cases r with
      | error e =>
        simp [handleTick, seq_of_error _ _ _ _ _ _ h] at hok
      | ok u =>
        simp only [handleTick, seq_of_ok _ _ _ _ _ _ h] at hok
        rw [h] at hh
        simp only [recoverySequences, hz, h, List.filter_cons, if_true, List.map_cons]
        rw [ih s1 hok]
        simpa using hh

/-- The inputs whose level is not silent can be left out of a tick. -/
theorem handleTick_filter {σ : Type} (cl : Client σ) (inputs : List GoString)
    (currentLevel : GoMap Float64) (dryRun : Bool) (st : σ) :
    handleTick cl inputs currentLevel dryRun st =
      handleTick cl (inputs.filter (fun n => isZero (index currentLevel n))) currentLevel
        dryRun st := by
  induction inputs generalizing st with
  | nil => rfl
  | cons n rest ih =>
    cases hz : isZero (index currentLevel n)
    · have h := checkAndFixInput_nonzero cl n (index currentLevel n) dryRun st hz
      simp only [List.filter_cons, hz, Bool.false_eq_true, if_false]
      rw [← ih st]
      simp only [handleTick, seq_of_ok _ _ _ _ _ _ h, List.nil_append]
    · simp only [List.filter_cons, hz, if_true, handleTick]
      simp only [Prog.seq]
      rcases checkAndFixInput cl n (index currentLevel n) dryRun st with ⟨r, s1, t⟩
      cases r with
      | error e => rfl
      | ok u => simp only [ih s1]

/-! ## The claims -/

/-- A string that does not end with two markers in a row has no marker left
after one `TrimSuffix`. -/
theorem HasSuffix_TrimSuffix (s m : GoString) (h : HasSuffix s (m ++ m) = false) :
    HasSuffix (TrimSuffix s m) m = false := by
  cases hs : HasSuffix s m
  · rw [TrimSuffix_of_not s m hs]; exact hs
  · obtain ⟨t, rfl⟩ := (HasSuffix_iff s m).mp hs
    rw [TrimSuffix_append]
    cases ht : HasSuffix t m
    · rfl
    · obtain ⟨u, rfl⟩ := (HasSuffix_iff t m).mp ht
      rw [List.append_assoc, HasSuffix_append] at h
      exact absurd h (by decide)

theorem setInputSettings_of_ok {σ : Type} (cl : Client σ)
    (hok : ∀ st req, (cl.SetInputSettings st req).1 = .ok ()) (st : σ)
    (req : SetInputSettingsParams) :
    cl.SetInputSettings st req = (.ok (), (cl.SetInputSettings st req).2) := by
  rw [← hok st req]

/-- C1 (as the code has it): an input name without an entry in the snapshot is
looked up as level `0`, the zero value of `float64`; `checkAndFixInput` does not
classify it as silent and returns at once, with no request and no delay. -/
theorem C1_absent_input_zero_level_no_recovery {σ : Type} (cl : Client σ) (st : σ)
    (currentLevel : GoMap Float64) (inputName : GoString) (dryRun : Bool)
    (habsent : currentLevel.get inputName = none) :
    index currentLevel inputName = Float64.zero ∧
      isZero (index currentLevel inputName) = false ∧
      checkAndFixInput cl inputName (index currentLevel inputName) dryRun st =
        ⟨.ok (), st, []⟩ := by
  have h0 : index currentLevel inputName = Float64.zero := by simp [index, habsent]
  have hz : isZero (index currentLevel inputName) = false := by rw [h0]; decide
  exact ⟨h0, hz, checkAndFixInput_nonzero cl inputName _ dryRun st hz⟩

/-- The empty snapshot and the input `Mic1`: level `0`, no effect. -/
theorem C1_absent_input_zero_level_no_recovery_witness :
    GoMap.get ([] : GoMap Float64) mic1 = none ∧
      index [] mic1 = Float64.zero ∧ isZero (index [] mic1) = false ∧
      checkAndFixInput memoryClient mic1 (index [] mic1) false (obsWith "abc".toList) =
        ⟨.ok (), obsWith "abc".toList, []⟩ :=
  ⟨rfl, C1_absent_input_zero_level_no_recovery memoryClient (obsWith "abc".toList) [] mic1 false
    rfl⟩

/-- C1 as stated fails: in the initial empty snapshot `Mic1` has no entry, yet its
level is not classified silent and the tick performs no fetch for it. -/
theorem C1_absent_input_counterexample :
    GoMap.get ([] : GoMap Float64) mic1 = none ∧ isZero (index [] mic1) = false ∧
      (handleTick memoryClient [mic1] [] false (obsWith "abc".toList)).trace = [] := by
  decide

/-- C2 (as the code has it): for a silent input of the supported device kind, in
non-dry-run mode with all RPCs succeeding, whose fetched `custom_pcm` does not end
with two markers in a row, the last set-settings write carries `custom_pcm` with
one marker stripped, and that string does not end with `_reopening`. -/
theorem C2_last_write_has_no_marker {σ : Type} (cl : Client σ) (st st1 : σ)
    (inputName : GoString) (currentLevel : Float64) (settings : Settings) (s : GoString)
    (hsilent : isZero currentLevel = true)
    (hget : cl.GetInputSettings st inputName = (.ok settings, st1))
    (hok : ∀ st req, (cl.SetInputSettings st req).1 = .ok ())
    (hdev : settings.get keyDeviceID = some (.str customDevice))
    (hpcm : settings.get keyCustomPCM = some (.str s))
    (hsingle : HasSuffix s (magicSuffix ++ magicSuffix) = false) :
    lastWrittenPCM (checkAndFixInput cl inputName currentLevel false st).trace =
        some (TrimSuffix s magicSuffix) ∧
      HasSuffix (TrimSuffix s magicSuffix) magicSuffix = false := by
  refine ⟨?_, HasSuffix_TrimSuffix s magicSuffix hsingle⟩
  cases hs : HasSuffix s magicSuffix
  · rw [checkAndFixInput_fresh cl st st1 _ _ inputName currentLevel settings s hsilent hget hdev
      hpcm hs (setInputSettings_of_ok cl hok _ _) (setInputSettings_of_ok cl hok _ _)]
    simp [lastWrittenPCM, writes, GoMap.get_set_self, assertString, TrimSuffix_of_not s _ hs]
  · obtain ⟨t, rfl⟩ := (HasSuffix_iff s magicSuffix).mp hs
    rw [checkAndFixInput_marked cl st st1 _ inputName currentLevel settings t hsilent hget hdev
      hpcm (setInputSettings_of_ok cl hok _ _)]
    simp [lastWrittenPCM, writes, GoMap.get_set_self, assertString, TrimSuffix_append]

/-- The string `abc_reopening` against a service that acknowledges every write. -/
theorem C2_last_write_has_no_marker_witness :
    isZero minus90 = true ∧
      HasSuffix "abc_reopening".toList (magicSuffix ++ magicSuffix) = false ∧
      lastWrittenPCM (checkAndFixInput
          (fixedClient (alsaSettings customDevice "abc_reopening".toList)) mic1 minus90 false
          ()).trace = some (TrimSuffix "abc_reopening".toList magicSuffix) ∧
      HasSuffix (TrimSuffix "abc_reopening".toList magicSuffix) magicSuffix = false :=
  ⟨by decide, by decide,
    C2_last_write_has_no_marker (fixedClient (alsaSettings customDevice "abc_reopening".toList))
      () () mic1 minus90 (alsaSettings customDevice "abc_reopening".toList)
      "abc_reopening".toList (by decide) rfl (fun _ _ => rfl) (by decide) (by decide)
      (by decide)⟩

/-- C2 as stated fails: `Mic1` is silent, of the supported kind, every RPC
succeeds, and its `custom_pcm` is `abc_reopening_reopening`; the only write
carries `abc_reopening`, which ends with the marker. -/
theorem C2_last_write_counterexample :
    isZero minus90 = true ∧
      (checkAndFixInput memoryClient mic1 minus90 false
        (obsWith "abc_reopening_reopening".toList)).result = .ok () ∧
      lastWrittenPCM (checkAndFixInput memoryClient mic1 minus90 false
        (obsWith "abc_reopening_reopening".toList)).trace = some "abc_reopening".toList ∧
      HasSuffix "abc_reopening".toList magicSuffix = true :=
  ⟨by decide, rfl, by decide, by decide⟩

/-- C3: for a silent level, an input of device kind `__custom__` and a
`custom_pcm` string `s` that does not end with `_reopening`, `checkAndFixInput` in
non-dry-run mode (the requests succeeding) fetches, issues exactly two set-settings
writes, first `custom_pcm = s ++ "_reopening"`, then `custom_pcm = s`, both being the
fetched settings with only `custom_pcm` replaced and `overlay = true`, then sleeps
five seconds and returns. -/
theorem C3_fresh_input_mark_then_unmark {σ : Type} (cl : Client σ) (st st1 st2 st3 : σ)
    (inputName : GoString) (currentLevel : Float64) (settings : Settings) (s : GoString)
    (hsilent : isZero currentLevel = true)
    (hget : cl.GetInputSettings st inputName = (.ok settings, st1))
    (hdev : settings.get keyDeviceID = some (.str customDevice))
    (hpcm : settings.get keyCustomPCM = some (.str s))
    (hfresh : HasSuffix s magicSuffix = false)
    (hset1 : cl.SetInputSettings st1
      ⟨inputName, settings.set keyCustomPCM (.str (s ++ magicSuffix)), true⟩ = (.ok (), st2))
    (hset2 : cl.SetInputSettings st2
      ⟨inputName, settings.set keyCustomPCM (.str s), true⟩ = (.ok (), st3)) :
    checkAndFixInput cl inputName currentLevel false st =
        ⟨.ok (), st3,
          [.GetInputSettings inputName,
           .SetInputSettings
             ⟨inputName, settings.set keyCustomPCM (.str (s ++ magicSuffix)), true⟩,
           .SetInputSettings ⟨inputName, settings.set keyCustomPCM (.str s), true⟩,
           .Sleep (5 * 1000000000)]⟩ ∧
      writes (checkAndFixInput cl inputName currentLevel false st).trace =
        [⟨inputName, settings.set keyCustomPCM (.str (s ++ magicSuffix)), true⟩,
         ⟨inputName, settings.set keyCustomPCM (.str s), true⟩] ∧
      (settings.set keyCustomPCM (.str (s ++ magicSuffix))).get keyCustomPCM =
        some (.str (s ++ magicSuffix)) ∧
      (settings.set keyCustomPCM (.str s)).get keyCustomPCM = some (.str s) ∧
      ∀ k, k ≠ keyCustomPCM →
        (settings.set keyCustomPCM (.str (s ++ magicSuffix))).get k = settings.get k ∧
        (settings.set keyCustomPCM (.str s)).get k = settings.get k := by
  have h := checkAndFixInput_fresh cl st st1 st2 st3 inputName currentLevel settings s hsilent
    hget hdev hpcm hfresh hset1 hset2
  refine ⟨h, ?_, GoMap.get_set_self _ _ _, GoMap.get_set_self _ _ _,
    fun k hk => ⟨GoMap.get_set_of_ne _ _ _ _ hk, GoMap.get_set_of_ne _ _ _ _ hk⟩⟩
  rw [h]
  simp [writes]

/-- Scenario A: `Mic1` at level `-90` with `custom_pcm = "abc"`. -/
theorem C3_fresh_input_mark_then_unmark_witness :
    isZero minus90 = true ∧ HasSuffix "abc".toList magicSuffix = false ∧
      checkAndFixInput memoryClient mic1 minus90 false (obsWith "abc".toList) =
        ⟨.ok (), obsWith "abc".toList,
          [.GetInputSettings mic1,
           .SetInputSettings ⟨mic1, alsaSettings customDevice "abc_reopening".toList, true⟩,
           .SetInputSettings ⟨mic1, alsaSettings customDevice "abc".toList, true⟩,
           .Sleep (5 * 1000000000)]⟩ :=
  ⟨by decide, by decide,
    (C3_fresh_input_mark_then_unmark memoryClient (obsWith "abc".toList)
      (obsWith "abc".toList) (obsWith "abc_reopening".toList) (obsWith "abc".toList) mic1
      minus90 (alsaSettings customDevice "abc".toList) "abc".toList (by decide) rfl (by decide)
      (by decide) (by decide) rfl rfl).1⟩

/-- C4: for every string `s`, `checkAndFixInput` (silent level, supported device
kind, non-dry-run, the requests succeeding) on an input whose `custom_pcm` is
`s ++ "_reopening"` skips the mark-write and issues exactly one set-settings write,
with `custom_pcm = s`; and when `s` does not end with the marker, a following
invocation that fetches `custom_pcm = s` behaves as on a fresh input: it writes
`s ++ "_reopening"`, then `s`. -/
theorem C4_marked_input_unmark_only {σ : Type} (cl : Client σ) (st st1 st2 : σ)
    (inputName : GoString) (currentLevel : Float64) (settings : Settings) (s : GoString)
    (hsilent : isZero currentLevel = true)
    (hget : cl.GetInputSettings st inputName = (.ok settings, st1))
    (hdev : settings.get keyDeviceID = some (.str customDevice))
    (hpcm : settings.get keyCustomPCM = some (.str (s ++ magicSuffix)))
    (hset : cl.SetInputSettings st1
      ⟨inputName, settings.set keyCustomPCM (.str s), true⟩ = (.ok (), st2)) :
    (checkAndFixInput cl inputName currentLevel false st =
        ⟨.ok (), st2,
          [.GetInputSettings inputName,
           .SetInputSettings ⟨inputName, settings.set keyCustomPCM (.str s), true⟩,
           .Sleep (5 * 1000000000)]⟩ ∧
      writes (checkAndFixInput cl inputName currentLevel false st).trace =
        [⟨inputName, settings.set keyCustomPCM (.str s), true⟩] ∧
      (settings.set keyCustomPCM (.str s)).get keyCustomPCM = some (.str s)) ∧
    (HasSuffix s magicSuffix = false →
      ∀ (level2 : Float64) (settings2 : Settings) (st3 st4 st5 : σ),
        isZero level2 = true →
        cl.GetInputSettings st2 inputName = (.ok settings2, st3) →
        settings2.get keyDeviceID = some (.str customDevice) →
        settings2.get keyCustomPCM = some (.str s) →
        cl.SetInputSettings st3
          ⟨inputName, settings2.set keyCustomPCM (.str (s ++ magicSuffix)), true⟩ =
            (.ok (), st4) →
        cl.SetInputSettings st4
          ⟨inputName, settings2.set keyCustomPCM (.str s), true⟩ = (.ok (), st5) →
        writes (checkAndFixInput cl inputName level2 false st2).trace =
          [⟨inputName, settings2.set keyCustomPCM (.str (s ++ magicSuffix)), true⟩,
           ⟨inputName, settings2.set keyCustomPCM (.str s), true⟩]) := by
  have h := checkAndFixInput_marked cl st st1 st2 inputName currentLevel settings s hsilent hget
    hdev hpcm hset
  refine ⟨⟨h, ?_, GoMap.get_set_self _ _ _⟩, ?_⟩
  · rw [h]; simp [writes]
  · intro hfresh level2 settings2 st3 st4 st5 hz2 hget2 hdev2 hpcm2 hs1 hs2
    rw [checkAndFixInput_fresh cl st2 st3 st4 st5 inputName level2 settings2 s hz2 hget2 hdev2
      hpcm2 hfresh hs1 hs2]
    simp [writes]

/-- Scenario B: `Mic1` with `custom_pcm = "abc_reopening"`, then a second run. -/
theorem C4_marked_input_unmark_only_witness :
    (checkAndFixInput memoryClient mic1 minus90 false (obsWith "abc_reopening".toList) =
        ⟨.ok (), obsWith "abc".toList,
          [.GetInputSettings mic1,
           .SetInputSettings ⟨mic1, alsaSettings customDevice "abc".toList, true⟩,
           .Sleep (5 * 1000000000)]⟩) ∧
      writes (checkAndFixInput memoryClient mic1 minus90 false (obsWith "abc".toList)).trace =
        [⟨mic1, alsaSettings customDevice "abc_reopening".toList, true⟩,
         ⟨mic1, alsaSettings customDevice "abc".toList, true⟩] :=
  ⟨(C4_marked_input_unmark_only memoryClient (obsWith "abc_reopening".toList)
      (obsWith "abc_reopening".toList) (obsWith "abc".toList) mic1 minus90
      (alsaSettings customDevice "abc_reopening".toList) "abc".toList (by decide) rfl (by decide)
      (by decide) rfl).1.1,
    (C4_marked_input_unmark_only memoryClient (obsWith "abc_reopening".toList)
      (obsWith "abc_reopening".toList) (obsWith "abc".toList) mic1 minus90
      (alsaSettings customDevice "abc_reopening".toList) "abc".toList (by decide) rfl (by decide)
      (by decide) rfl).2 (by decide) minus90 (alsaSettings customDevice "abc".toList)
      (obsWith "abc".toList) (obsWith "abc_reopening".toList) (obsWith "abc".toList)
      (by decide) rfl (by decide) (by decide) rfl rfl⟩

/-- C5 (as the code has it): with `dryRun = true`, `checkAndFixInput` issues no
set-settings request, for every input name, every level and every answer of the
service; when the level is silent, the fetch succeeds and the fetched settings
have the supported device kind and a string under `custom_pcm`, it still performs
the fetch and still sleeps five seconds before it returns. -/
theorem C5_dry_run_no_write {σ : Type} (cl : Client σ) (st : σ) (inputName : GoString)
    (currentLevel : Float64) :
    writes (checkAndFixInput cl inputName currentLevel true st).trace = [] ∧
    (∀ req, Effect.SetInputSettings req ∉
      (checkAndFixInput cl inputName currentLevel true st).trace) ∧
    ∀ (st1 : σ) (settings : Settings) (s : GoString),
      isZero currentLevel = true →
      cl.GetInputSettings st inputName = (.ok settings, st1) →
      settings.get keyDeviceID = some (.str customDevice) →
      settings.get keyCustomPCM = some (.str s) →
      checkAndFixInput cl inputName currentLevel true st =
        ⟨.ok (), st1, [.GetInputSettings inputName, .Sleep (5 * 1000000000)]⟩ := by
  have hw := writes_checkAndFixInput_dryRun cl st inputName currentLevel
  refine ⟨hw, ?_, ?_⟩
  · intro req hmem
    have : req ∈ writes (checkAndFixInput cl inputName currentLevel true st).trace := by
      simp only [writes, List.mem_filterMap]
      exact ⟨_, hmem, rfl⟩
    rw [hw] at this
    exact absurd this (List.not_mem_nil _)
  · intro st1 settings s hz hget hdev hpcm
    exact checkAndFixInput_dryRun cl st st1 inputName currentLevel settings s hz hget hdev hpcm

/-- A dry run on `Mic1` at level `-90`: fetch and sleep only. -/
theorem C5_dry_run_no_write_witness :
    writes (checkAndFixInput memoryClient mic1 minus90 true (obsWith "abc".toList)).trace = [] ∧
      checkAndFixInput memoryClient mic1 minus90 true (obsWith "abc".toList) =
        ⟨.ok (), obsWith "abc".toList, [.GetInputSettings mic1, .Sleep (5 * 1000000000)]⟩ :=
  ⟨(C5_dry_run_no_write memoryClient (obsWith "abc".toList) mic1 minus90).1,
    (C5_dry_run_no_write memoryClient (obsWith "abc".toList) mic1 minus90).2.2
      (obsWith "abc".toList) (alsaSettings customDevice "abc".toList) "abc".toList (by decide)
      rfl (by decide) (by decide)⟩

/-- C5 as stated fails: in a dry run `Mic1` is silent and its fetched settings
have the supported device kind but no `custom_pcm`; the type assertion of line 113
stops the process right after the fetch, with no settle delay and no return. -/
theorem C5_dry_run_counterexample :
    isZero minus90 = true ∧
      GoMap.get [(keyDeviceID, AnyValue.str customDevice)] keyDeviceID =
        some (.str customDevice) ∧
      checkAndFixInput memoryClient mic1 minus90 true
          [(mic1, [(keyDeviceID, AnyValue.str customDevice)])] =
        ⟨.error (.typeAssertion keyCustomPCM),
          [(mic1, [(keyDeviceID, AnyValue.str customDevice)])], [.GetInputSettings mic1]⟩ ∧
      Effect.Sleep (5 * 1000000000) ∉
        (checkAndFixInput memoryClient mic1 minus90 true
          [(mic1, [(keyDeviceID, AnyValue.str customDevice)])]).trace :=
  ⟨by decide, by decide, rfl, by decide⟩

/-- C6: for a silent input whose fetched `device_id` is a string other than
`__custom__`, `checkAndFixInput` stops the process on the unsupported-device check
right after the fetch, without any set-settings write, whatever `custom_pcm` and
the dry-run flag are; with `device_id = "__custom__"` this stop never occurs. -/
theorem C6_unsupported_device_fails_before_write {σ : Type} (cl : Client σ) (st st1 : σ)
    (inputName : GoString) (currentLevel : Float64) (dryRun : Bool) (settings : Settings)
    (deviceID : GoString)
    (hsilent : isZero currentLevel = true)
    (hget : cl.GetInputSettings st inputName = (.ok settings, st1))
    (hdev : settings.get keyDeviceID = some (.str deviceID)) :
    (deviceID ≠ customDevice →
      checkAndFixInput cl inputName currentLevel dryRun st =
        ⟨.error (.unsupportedDeviceID inputName deviceID), st1,
          [.GetInputSettings inputName]⟩ ∧
      writes (checkAndFixInput cl inputName currentLevel dryRun st).trace = []) ∧
    (deviceID = customDevice →
      ∀ n d, (checkAndFixInput cl inputName currentLevel dryRun st).result ≠
        .error (.unsupportedDeviceID n d)) := by
  constructor
  · intro hne
    have h := checkAndFixInput_unsupported cl st st1 inputName currentLevel dryRun settings
      deviceID hsilent hget hdev hne
    refine ⟨h, ?_⟩
    rw [h]; simp [writes]
  · intro heq n d
    subst heq
    exact checkAndFixInput_custom cl st st1 inputName currentLevel dryRun settings hget hdev n d

/-- The input `Mic1` with `device_id = "default"`. -/
theorem C6_unsupported_device_fails_before_write_witness :
    checkAndFixInput memoryClient mic1 minus90 false
        [(mic1, alsaSettings "default".toList "abc".toList)] =
      ⟨.error (.unsupportedDeviceID mic1 "default".toList),
        [(mic1, alsaSettings "default".toList "abc".toList)], [.GetInputSettings mic1]⟩ ∧
      writes (checkAndFixInput memoryClient mic1 minus90 false
        [(mic1, alsaSettings "default".toList "abc".toList)]).trace = [] :=
  (C6_unsupported_device_fails_before_write memoryClient
    [(mic1, alsaSettings "default".toList "abc".toList)]
    [(mic1, alsaSettings "default".toList "abc".toList)] mic1 minus90 false
    (alsaSettings "default".toList "abc".toList) "default".toList (by decide) rfl
    (by decide)).1 (by decide)

/-- The running maximum started at `-math.MaxFloat64` is the maximum of the
scalars when none is NaN and one of them is not negative infinity. -/
theorem volumeOf_isMaximumOf (input : InputVolumeMeter)
    (hnan : ∀ x ∈ scalars input, x.isNaN = false)
    (hfin : ∃ x ∈ scalars input, x.isNegInf = false) :
    IsMaximumOf (volumeOf input) (scalars input) := by
  rw [volumeOf_eq_foldl]
  obtain ⟨r1, r2, r3, r4⟩ := Float64.foldl_Max_spec (scalars input)
    (Float64.neg Float64.MaxFloat64) (by decide) hnan
  refine ⟨?_, ?_⟩
  · rcases r2 with h | h
    · obtain ⟨x, hx, hxi⟩ := hfin
      have h1 := Float64.key_ge_of_not_negInf x (hnan x hx) hxi
      have h2 := r4 x hx
      rw [h] at h2
      have hxe := Float64.eq_of_key_eq_negMax x (le_antisymm h2 h1)
      rw [h, ← hxe]
      exact hx
    · exact h
  · intro x hx
    simp only [Float64.le, hnan x hx, r1, Bool.not_false, Bool.true_and, decide_eq_true_eq]
    exact r4 x hx

/-- C7 (as the code has it): for every `InputVolumeMeters` event and every input
in it that is the last entry of its name, whose scalars contain no NaN and at least
one value other than negative infinity, the level stored in the snapshot for that
name after the event is the maximum of all scalars of its `Levels` (over every
channel and every component). -/
theorem C7_stored_level_is_maximum (prior : GoMap Float64) (pre post : List InputVolumeMeter)
    (input : InputVolumeMeter)
    (hlast : ∀ j ∈ post, j.Name ≠ input.Name)
    (hnan : ∀ x ∈ scalars input, x.isNaN = false)
    (hfin : ∃ x ∈ scalars input, x.isNegInf = false) :
    IsMaximumOf (index (handleInputVolumeMeters prior ⟨pre ++ input :: post⟩) input.Name)
      (scalars input) := by
  rw [index_handleInputVolumeMeters prior pre post input hlast]
  exact volumeOf_isMaximumOf input hnan hfin

/-- An event with `Mic2` and `Mic1`; the scalars of `Mic1` are `-90, 1, 2, -Inf`. -/
theorem C7_stored_level_is_maximum_witness :
    IsMaximumOf
      (index (handleInputVolumeMeters [(mic2, one)]
        ⟨[⟨mic2, [[one]]⟩] ++ ⟨mic1, [[minus90, one], [], [two, Float64.negInf]]⟩ :: []⟩) mic1)
      (scalars ⟨mic1, [[minus90, one], [], [two, Float64.negInf]]⟩) :=
  C7_stored_level_is_maximum [(mic2, one)] [⟨mic2, [[one]]⟩] []
    ⟨mic1, [[minus90, one], [], [two, Float64.negInf]]⟩ (by decide) (by decide)
    ⟨one, by decide, by decide⟩

/-- C7 as stated fails: the only scalar of `Mic1` is negative infinity, and the
level stored for `Mic1` is `-math.MaxFloat64`, which is not among its scalars. -/
theorem C7_stored_level_counterexample :
    scalars ⟨mic1, [[Float64.negInf]]⟩ = [Float64.negInf] ∧
      index (handleInputVolumeMeters [] ⟨[⟨mic1, [[Float64.negInf]]⟩]⟩) mic1 =
        Float64.neg Float64.MaxFloat64 ∧
      ¬ IsMaximumOf (index (handleInputVolumeMeters [] ⟨[⟨mic1, [[Float64.negInf]]⟩]⟩) mic1)
        (scalars ⟨mic1, [[Float64.negInf]]⟩) := by
  refine ⟨by decide, by decide, fun h => ?_⟩
  exact absurd h.1 (by decide)

/-- C8: for every prior snapshot and every `InputVolumeMeters` event, the snapshot
after the event depends on the event only (any two prior snapshots give the same
one); its keys are exactly the input names listed in the event, and a name that is
not in the event has no entry afterwards, whatever it had before. -/
theorem C8_snapshot_replaced_by_event (prior : GoMap Float64) (ev : InputVolumeMeters) :
    (∀ prior2 : GoMap Float64,
      handleInputVolumeMeters prior ev = handleInputVolumeMeters prior2 ev) ∧
    (∀ n, n ∈ (handleInputVolumeMeters prior ev).keys ↔
      n ∈ ev.Inputs.map (fun input => input.Name)) ∧
    (∀ n, n ∉ ev.Inputs.map (fun input => input.Name) →
      (handleInputVolumeMeters prior ev).get n = none) := by
  have hkeys : ∀ n, n ∈ (handleInputVolumeMeters prior ev).keys ↔
      n ∈ ev.Inputs.map (fun input => input.Name) := by
    intro n
    simp only [handleInputVolumeMeters, clearLevels_eq_nil, mem_keys_foldl_set]
    simp [GoMap.keys]
  refine ⟨fun prior2 => ?_, hkeys, fun n hn => ?_⟩
  · simp only [handleInputVolumeMeters, clearLevels_eq_nil]
  · exact get_eq_none_of_not_mem_keys _ n (fun h => hn ((hkeys n).mp h))

/-- C9: the effects of one tick are exactly the concatenation, in the configured
order, of the recovery sequences of the inputs whose snapshot level is classified
silent; an input whose level is not silent produces no request and no delay, so it
can be left out of the tick; and in a tick that runs to its end every silent input
has its sequence, which starts with the fetch of that input. -/
theorem C9_tick_recovers_silent_inputs_in_order {σ : Type} (cl : Client σ)
    (inputs : List GoString) (currentLevel : GoMap Float64) (dryRun : Bool) (st : σ) :
    (handleTick cl inputs currentLevel dryRun st).trace =
      (recoverySequences cl inputs currentLevel dryRun st).flatten ∧
    (∀ (n : GoString) (st1 : σ), isZero (index currentLevel n) = false →
      checkAndFixInput cl n (index currentLevel n) dryRun st1 = ⟨.ok (), st1, []⟩) ∧
    handleTick cl inputs currentLevel dryRun st =
      handleTick cl (inputs.filter (fun n => isZero (index currentLevel n))) currentLevel
        dryRun st ∧
    ((handleTick cl inputs currentLevel dryRun st).result = .ok () →
      (recoverySequences cl inputs currentLevel dryRun st).map List.head? =
        (inputs.filter (fun n => isZero (index currentLevel n))).map
          (fun n => some (Effect.GetInputSettings n))) :=
  ⟨trace_handleTick cl inputs currentLevel dryRun st,
    fun n st1 h => checkAndFixInput_nonzero cl n _ dryRun st1 h,
    handleTick_filter cl inputs currentLevel dryRun st,
    heads_recoverySequences cl inputs currentLevel dryRun st⟩

/-- Scenario C: `Mic2` at level `1` is skipped, `Mic1` at level `-90` is recovered. -/
theorem C9_tick_recovers_silent_inputs_in_order_witness :
    (handleTick memoryClient [mic2, mic1] [(mic1, minus90), (mic2, one)] false
        (obsWith "abc".toList)).result = .ok () ∧
      (handleTick memoryClient [mic2, mic1] [(mic1, minus90), (mic2, one)] false
        (obsWith "abc".toList)).trace =
        [.GetInputSettings mic1,
         .SetInputSettings ⟨mic1, alsaSettings customDevice "abc_reopening".toList, true⟩,
         .SetInputSettings ⟨mic1, alsaSettings customDevice "abc".toList, true⟩,
         .Sleep (5 * 1000000000)] ∧
      (recoverySequences memoryClient [mic2, mic1] [(mic1, minus90), (mic2, one)] false
        (obsWith "abc".toList)).map List.head? = [some (Effect.GetInputSettings mic1)] :=
  ⟨rfl,
    (C9_tick_recovers_silent_inputs_in_order memoryClient [mic2, mic1]
      [(mic1, minus90), (mic2, one)] false (obsWith "abc".toList)).1.trans (by decide),
    (C9_tick_recovers_silent_inputs_in_order memoryClient [mic2, mic1]
      [(mic1, minus90), (mic2, one)] false (obsWith "abc".toList)).2.2.2 rfl⟩

/-- C10 (as the code has it): for every `InputVolumeMeters` event and every input
in it that is the last entry of its name and reports zero measurement components
(empty `Levels`, or only empty channels), the level stored for that input is
`-math.MaxFloat64`, the lowest finite float64 and not negative infinity; at the
next tick `checkAndFixInput` classifies that level as silent and starts the
recovery with the fetch. -/
theorem C10_no_components_level_is_negMaxFloat64 (prior : GoMap Float64)
    (pre post : List InputVolumeMeter) (input : InputVolumeMeter)
    (hlast : ∀ j ∈ post, j.Name ≠ input.Name)
    (hempty : scalars input = []) :
    index (handleInputVolumeMeters prior ⟨pre ++ input :: post⟩) input.Name =
      Float64.neg Float64.MaxFloat64 ∧
    (index (handleInputVolumeMeters prior ⟨pre ++ input :: post⟩) input.Name).isNegInf
      = false ∧
    isZero (index (handleInputVolumeMeters prior ⟨pre ++ input :: post⟩) input.Name) = true ∧
    ∀ (σ : Type) (cl : Client σ) (st : σ) (dryRun : Bool),
      (checkAndFixInput cl input.Name
        (index (handleInputVolumeMeters prior ⟨pre ++ input :: post⟩) input.Name) dryRun
        st).trace.head? = some (.GetInputSettings input.Name) := by
  have h : index (handleInputVolumeMeters prior ⟨pre ++ input :: post⟩) input.Name =
      Float64.neg Float64.MaxFloat64 := by
    rw [index_handleInputVolumeMeters prior pre post input hlast, volumeOf_eq_foldl, hempty]
    rfl
  rw [h]
  exact ⟨rfl, by decide, by decide,
    fun σ cl st dryRun => head_trace_checkAndFixInput cl st input.Name _ dryRun (by decide)⟩

/-- The input `Mic1` with two empty channels. -/
theorem C10_no_components_level_is_negMaxFloat64_witness :
    scalars ⟨mic1, [[], []]⟩ = [] ∧
      index (handleInputVolumeMeters [(mic1, one)] ⟨[] ++ ⟨mic1, [[], []]⟩ :: []⟩) mic1 =
        Float64.neg Float64.MaxFloat64 ∧
      isZero (index (handleInputVolumeMeters [(mic1, one)] ⟨[] ++ ⟨mic1, [[], []]⟩ :: []⟩) mic1)
        = true :=
  ⟨rfl,
    (C10_no_components_level_is_negMaxFloat64 [(mic1, one)] [] [] ⟨mic1, [[], []]⟩
      (by decide) rfl).1,
    (C10_no_components_level_is_negMaxFloat64 [(mic1, one)] [] [] ⟨mic1, [[], []]⟩
      (by decide) rfl).2.2.1⟩

/-- C10 as stated fails: `Mic1` reports no component, and the level stored for it
is `-math.MaxFloat64`, a finite value, not negative infinity. -/
theorem C10_no_components_counterexample :
    scalars ⟨mic1, []⟩ = [] ∧
      index (handleInputVolumeMeters [] ⟨[⟨mic1, []⟩]⟩) mic1 ≠ Float64.negInf ∧
      (index (handleInputVolumeMeters [] ⟨[⟨mic1, []⟩]⟩) mic1).isNegInf = false := by
  decide

end ObsAlsaAutoReopen
